import Mathlib

/-!
Shallow embedding of the statistics / interval-barrier engine of hsbench
(hsbench.go, uuid.go).  Conventions of the embedding:

* Go `int`, `int32`, `int64` are modelled as `ℤ` (no claim here depends on
  machine-width overflow behaviour);
* Go `float64` is modelled as `ℚ`, with the exactly representable literals
  (0.5, 0.75) and the decimal literals (0.9, 0.95, 0.99) taken at their
  decimal value; division by zero in `ℚ` is `0`, matching the fact that no
  claim depends on NaN/Inf propagation;
* Go slice indexing `s[i]`, which panics when out of range, is modelled by
  `idxGetD`, returning `none` exactly when Go would panic;
* `bytefmt.MEGABYTE` (library code.cloudfoundry.org/bytefmt, a pinned
  dependency of the repository) is the binary constant `1 << 20 = 1048576`;
* the unguarded Go `for`-loop of `ThreadStats.updateIntervals` is modelled
  with explicit fuel: a result flag `false` means the loop had not exited
  after `fuel` iterations (in Go: the loop is still running).
-/

namespace Hsbench

/-- Go `math.Round`: round to nearest, ties away from zero. -/
def goRound (x : ℚ) : ℤ := if 0 ≤ x then ⌊x + 1/2⌋ else ⌈x - 1/2⌉

/-- `bytefmt.MEGABYTE` from code.cloudfoundry.org/bytefmt: `1 << 20`. -/
def MEGABYTE : ℚ := 1048576

/-- Go slice read `l[i]` (with `i` a Go integer): `none` models the
out-of-range panic. -/
def idxGetD {α : Type} (d : α) (l : List α) (i : ℤ) : Option α :=
  if 0 ≤ i ∧ i.toNat < l.length then some (l.getD i.toNat d) else none

/-- `sort.Slice(tmpLat, ...)`: ascending sort of the latency samples. -/
def sortLat (l : List ℤ) : List ℤ := l.mergeSort (fun a b => a ≤ b)

/-- hsbench.go `IntervalStats`: one worker's accumulated activity in one
interval (or an aggregated interval handed to `makeOutputStats`). -/
structure IntervalStats where
  loop : ℤ
  name : String
  mode : String
  bytes : ℤ
  slowdowns : ℤ
  intervalNano : ℤ
  latNano : List ℤ

instance : Inhabited IntervalStats := ⟨⟨0, "", "", 0, 0, 0, []⟩⟩

/-- hsbench.go `OutputStats`: the summary record. -/
structure OutputStats where
  loop : ℤ
  intervalName : String
  seconds : ℚ
  mode : String
  ops : ℕ
  mbps : ℚ
  iops : ℚ
  minLat : ℚ
  avgLat : ℚ
  lat99 : ℚ
  lat95 : ℚ
  lat90 : ℚ
  lat75 : ℚ
  lat50 : ℚ
  maxLat : ℚ
  slowdowns : ℤ

/-- The Go zero value `OutputStats{}` returned on the not-ready paths. -/
def emptyOutput : OutputStats := ⟨0, "", 0, "", 0, 0, 0, 0, 0, 0, 0, 0, 0, 0, 0, 0⟩

/-- hsbench.go `IntervalStats.makeOutputStats` (lines 111-162).  The caller
is responsible for `latNano` being sorted.  `none` models an index panic
(which, as proved below, never actually happens). -/
def makeOutputStats (is : IntervalStats) : Option OutputStats :=
  let ops : ℕ := is.latNano.length
  let seconds : ℚ := (is.intervalNano : ℚ) / 1000000000
  let mbps : ℚ := (is.bytes : ℚ) / seconds / MEGABYTE
  let iops : ℚ := (ops : ℚ) / seconds
  if 0 < ops then
    (idxGetD 0 is.latNano 0).bind fun minN =>
    (idxGetD 0 is.latNano ((ops : ℤ) - 1)).bind fun maxN =>
    (idxGetD 0 is.latNano (goRound (99/100 * (ops : ℚ)) - 1)).bind fun n99 =>
    (idxGetD 0 is.latNano (goRound (95/100 * (ops : ℚ)) - 1)).bind fun n95 =>
    (idxGetD 0 is.latNano (goRound (9/10 * (ops : ℚ)) - 1)).bind fun n90 =>
    (idxGetD 0 is.latNano (goRound (75/100 * (ops : ℚ)) - 1)).bind fun n75 =>
    (idxGetD 0 is.latNano (goRound (1/2 * (ops : ℚ)) - 1)).bind fun n50 =>
    some ⟨is.loop, is.name, seconds, is.mode, ops, mbps, iops,
      (minN : ℚ) / 1000000,
      (is.latNano.sum : ℚ) / (ops : ℚ) / 1000000,
      (n99 : ℚ) / 1000000, (n95 : ℚ) / 1000000, (n90 : ℚ) / 1000000,
      (n75 : ℚ) / 1000000, (n50 : ℚ) / 1000000,
      (maxN : ℚ) / 1000000, is.slowdowns⟩
  else
    some ⟨is.loop, is.name, seconds, is.mode, ops, mbps, iops,
      0, 0, 0, 0, 0, 0, 0, 0, is.slowdowns⟩

/-- The claim's clamped percentile index `round(p/100 * N) - 1`, clamped
into `[0, N-1]`. -/
def clampIdx (i : ℤ) (n : ℕ) : ℤ := max 0 (min i ((n : ℤ) - 1))

lemma idxGetD_eq {α : Type} (d : α) (l : List α) (i : ℤ)
    (h0 : 0 ≤ i) (h1 : i < (l.length : ℤ)) :
    idxGetD d l i = some (l.getD i.toNat d) := by
  unfold idxGetD
  rw [if_pos ⟨h0, by omega⟩]

lemma idxGetD_isSome {α : Type} (d : α) (l : List α) (i : ℤ) :
    (idxGetD d l i).isSome ↔ 0 ≤ i ∧ i < (l.length : ℤ) := by
  unfold idxGetD
  by_cases h : 0 ≤ i ∧ i.toNat < l.length
  · rw [if_pos h]
    simp only [Option.isSome_some, true_iff]
    omega
  · rw [if_neg h]
    simp only [Option.isSome_none, Bool.false_eq_true, false_iff]
    omega

/-- Bounds for the percentile index: for `1/2 ≤ p < 1` and `0 < N` the Go
index `round(p*N) - 1` is within `[0, N-1]` even without any clamping. -/
lemma pct_bounds (p : ℚ) (hp1 : 1/2 ≤ p) (hp2 : p < 1) (N : ℕ) (hN : 0 < N) :
    0 ≤ goRound (p * (N : ℚ)) - 1 ∧ goRound (p * (N : ℚ)) - 1 < (N : ℤ) := by
  have hN1 : (1 : ℚ) ≤ (N : ℚ) := by exact_mod_cast hN
  have hx0 : 0 ≤ p * (N : ℚ) := by nlinarith
  have hgr : goRound (p * (N : ℚ)) = ⌊p * (N : ℚ) + 1/2⌋ := by
    unfold goRound
    rw [if_pos hx0]
  constructor
  · have h1 : (1 : ℤ) ≤ ⌊p * (N : ℚ) + 1/2⌋ := by
      apply Int.le_floor.mpr
      push_cast
      nlinarith
    omega
  · have h2 : ⌊p * (N : ℚ) + 1/2⌋ < (N : ℤ) + 1 := by
      apply Int.floor_lt.mpr
      push_cast
      nlinarith
    omega

/-- Closed form of `makeOutputStats` for a non-empty sample: no index
panics, and every field is the Go expression with the (in-bounds) indices
written out. -/
lemma makeOutputStats_pos (is : IntervalStats) (hN : 0 < is.latNano.length) :
    makeOutputStats is = some
      ⟨is.loop, is.name, (is.intervalNano : ℚ) / 1000000000, is.mode,
       is.latNano.length,
       (is.bytes : ℚ) / ((is.intervalNano : ℚ) / 1000000000) / MEGABYTE,
       (is.latNano.length : ℚ) / ((is.intervalNano : ℚ) / 1000000000),
       (is.latNano.getD 0 0 : ℚ) / 1000000,
       (is.latNano.sum : ℚ) / (is.latNano.length : ℚ) / 1000000,
       (is.latNano.getD (goRound (99/100 * (is.latNano.length : ℚ)) - 1).toNat 0 : ℚ) / 1000000,
       (is.latNano.getD (goRound (95/100 * (is.latNano.length : ℚ)) - 1).toNat 0 : ℚ) / 1000000,
       (is.latNano.getD (goRound (9/10 * (is.latNano.length : ℚ)) - 1).toNat 0 : ℚ) / 1000000,
       (is.latNano.getD (goRound (75/100 * (is.latNano.length : ℚ)) - 1).toNat 0 : ℚ) / 1000000,
       (is.latNano.getD (goRound (1/2 * (is.latNano.length : ℚ)) - 1).toNat 0 : ℚ) / 1000000,
       (is.latNano.getD (((is.latNano.length : ℤ) - 1)).toNat 0 : ℚ) / 1000000,
       is.slowdowns⟩ := by
  have b99 := pct_bounds (99/100) (by norm_num) (by norm_num) _ hN
  have b95 := pct_bounds (95/100) (by norm_num) (by norm_num) _ hN
  have b90 := pct_bounds (9/10) (by norm_num) (by norm_num) _ hN
  have b75 := pct_bounds (75/100) (by norm_num) (by norm_num) _ hN
  have b50 := pct_bounds (1/2) (by norm_num) (by norm_num) _ hN
  have e0 := idxGetD_eq 0 is.latNano 0 le_rfl (by exact_mod_cast hN)
  have emax := idxGetD_eq 0 is.latNano ((is.latNano.length : ℤ) - 1)
    (by omega) (by omega)
  have e99 := idxGetD_eq 0 is.latNano _ b99.1 (by omega)
  have e95 := idxGetD_eq 0 is.latNano _ b95.1 (by omega)
  have e90 := idxGetD_eq 0 is.latNano _ b90.1 (by omega)
  have e75 := idxGetD_eq 0 is.latNano _ b75.1 (by omega)
  have e50 := idxGetD_eq 0 is.latNano _ b50.1 (by omega)
  unfold makeOutputStats
  rw [if_pos hN, e0, emax, e99, e95, e90, e75, e50]
  rfl

/-- Closed form of `makeOutputStats` for an empty sample. -/
lemma makeOutputStats_nil (is : IntervalStats) (hN : is.latNano.length = 0) :
    makeOutputStats is = some
      ⟨is.loop, is.name, (is.intervalNano : ℚ) / 1000000000, is.mode,
       is.latNano.length,
       (is.bytes : ℚ) / ((is.intervalNano : ℚ) / 1000000000) / MEGABYTE,
       (is.latNano.length : ℚ) / ((is.intervalNano : ℚ) / 1000000000),
       0, 0, 0, 0, 0, 0, 0, 0, is.slowdowns⟩ := by
  unfold makeOutputStats
  rw [if_neg (by omega)]

/-- `makeOutputStats` never panics, and the fields that do not depend on the
percentile selection have the stated closed forms in every case. -/
lemma makeOutputStats_some (is : IntervalStats) :
    ∃ o, makeOutputStats is = some o ∧
      o.loop = is.loop ∧
      o.intervalName = is.name ∧
      o.seconds = (is.intervalNano : ℚ) / 1000000000 ∧
      o.mode = is.mode ∧
      o.ops = is.latNano.length ∧
      o.mbps = (is.bytes : ℚ) / ((is.intervalNano : ℚ) / 1000000000) / MEGABYTE ∧
      o.iops = (is.latNano.length : ℚ) / ((is.intervalNano : ℚ) / 1000000000) ∧
      o.slowdowns = is.slowdowns := by
  by_cases hN : 0 < is.latNano.length
  · exact ⟨_, makeOutputStats_pos is hN, rfl, rfl, rfl, rfl, rfl, rfl, rfl, rfl⟩
  · exact ⟨_, makeOutputStats_nil is (by omega), rfl, rfl, rfl, rfl, rfl, rfl, rfl, rfl⟩

lemma clampIdx_eq (i : ℤ) (n : ℕ) (h0 : 0 ≤ i) (h1 : i < (n : ℤ)) :
    clampIdx i n = i := by
  unfold clampIdx
  rw [min_eq_left (by omega), max_eq_right h0]

/-- Claim C1: for every non-empty latency sample set, `makeOutputStats` on
the ascending-sorted samples reports `min = sample[0]`, `max = sample[N-1]`,
`avg = sum/N`, and for each `p ∈ {50,75,90,95,99}` the percentile latency is
the sample at index `round(p/100 * N) - 1` (round to nearest, ties away from
zero), clamped into `[0, N-1]`; in particular every index access is within
bounds (the result is `some`, never an index panic). -/
theorem percentile_spec (is : IntervalStats)
    (_hs : List.Sorted (· ≤ ·) is.latNano) (hn : 0 < is.latNano.length) :
    ∃ o, makeOutputStats is = some o ∧
      o.minLat = (is.latNano.getD 0 0 : ℚ) / 1000000 ∧
      o.maxLat = (is.latNano.getD (is.latNano.length - 1) 0 : ℚ) / 1000000 ∧
      o.avgLat = (is.latNano.sum : ℚ) / (is.latNano.length : ℚ) / 1000000 ∧
      o.lat50 = (is.latNano.getD (clampIdx (goRound ((50:ℚ)/100 * (is.latNano.length : ℚ)) - 1) is.latNano.length).toNat 0 : ℚ) / 1000000 ∧
      o.lat75 = (is.latNano.getD (clampIdx (goRound ((75:ℚ)/100 * (is.latNano.length : ℚ)) - 1) is.latNano.length).toNat 0 : ℚ) / 1000000 ∧
      o.lat90 = (is.latNano.getD (clampIdx (goRound ((90:ℚ)/100 * (is.latNano.length : ℚ)) - 1) is.latNano.length).toNat 0 : ℚ) / 1000000 ∧
      o.lat95 = (is.latNano.getD (clampIdx (goRound ((95:ℚ)/100 * (is.latNano.length : ℚ)) - 1) is.latNano.length).toNat 0 : ℚ) / 1000000 ∧
      o.lat99 = (is.latNano.getD (clampIdx (goRound ((99:ℚ)/100 * (is.latNano.length : ℚ)) - 1) is.latNano.length).toNat 0 : ℚ) / 1000000 := by
  have b99 := pct_bounds (99/100) (by norm_num) (by norm_num) _ hn
  have b95 := pct_bounds (95/100) (by norm_num) (by norm_num) _ hn
  have b90 := pct_bounds (9/10) (by norm_num) (by norm_num) _ hn
  have b75 := pct_bounds (75/100) (by norm_num) (by norm_num) _ hn
  have b50 := pct_bounds (1/2) (by norm_num) (by norm_num) _ hn
  have h50 : ((50:ℚ)/100) = 1/2 := by norm_num
  have h90 : ((90:ℚ)/100) = 9/10 := by norm_num
  refine ⟨_, makeOutputStats_pos is hn, rfl, ?_, rfl, ?_, ?_, ?_, ?_, ?_⟩
  · have ht : (((is.latNano.length : ℤ) - 1)).toNat = is.latNano.length - 1 := by
      omega
    rw [ht]
  · rw [h50, clampIdx_eq _ _ b50.1 b50.2]
  · rw [clampIdx_eq _ _ b75.1 b75.2]
  · rw [h90, clampIdx_eq _ _ b90.1 b90.2]
  · rw [clampIdx_eq _ _ b95.1 b95.2]
  · rw [clampIdx_eq _ _ b99.1 b99.2]

/-- A concrete sorted three-sample interval used by the C1 witness. -/
def sampleIS : IntervalStats := ⟨0, "0", "PUT", 0, 0, 1000000000, [1000000, 2000000, 3000000]⟩

theorem percentile_spec_witness :
    (makeOutputStats sampleIS).map OutputStats.minLat = some 1 ∧
    (makeOutputStats sampleIS).map OutputStats.lat50 = some 2 ∧
    (makeOutputStats sampleIS).map OutputStats.maxLat = some 3 := by
  obtain ⟨o, ho, hmin, hmax, havg, p50, p75, p90, p95, p99⟩ :=
    percentile_spec sampleIS (by decide) (by decide)
  rw [ho]
  refine ⟨?_, ?_, ?_⟩
  · rw [Option.map_some', hmin]
    norm_num [sampleIS]
  · rw [Option.map_some', p50]
    norm_num [sampleIS, clampIdx, goRound]
  · rw [Option.map_some', hmax]
    norm_num [sampleIS]

/-- The interval record refuting C6's decimal-megabyte claim: 2^20 bytes in
exactly one second. -/
def mbpsCex : IntervalStats := ⟨0, "0", "PUT", 1048576, 0, 1000000000, []⟩

/-- Counterexample to claim C6: for 1048576 bytes in one second the code
reports 1.0 MB/s, while `bytes / seconds / 1,000,000` would be 1.048576: the
divisor is the binary constant `bytefmt.MEGABYTE = 1048576`, not 10^6. -/
theorem mbps_binary_cex :
    (makeOutputStats mbpsCex).map OutputStats.mbps = some 1 ∧
    ((1048576 : ℚ) / 1 / 1000000 ≠ 1) := by
  constructor
  · rw [makeOutputStats_nil mbpsCex rfl, Option.map_some']
    norm_num [mbpsCex, MEGABYTE]
  · norm_num

/-- Claim C6 (amended): throughput MB/s is `bytes / elapsed_seconds /
1048576` (binary mebibyte, `bytefmt.MEGABYTE`), and IOPS is the operation
count divided by elapsed seconds. -/
theorem mbps_formula (is : IntervalStats) :
    ∃ o, makeOutputStats is = some o ∧
      o.mbps = (is.bytes : ℚ) / ((is.intervalNano : ℚ) / 1000000000) / 1048576 ∧
      o.iops = (is.latNano.length : ℚ) / ((is.intervalNano : ℚ) / 1000000000) := by
  obtain ⟨o, ho, _, _, _, _, _, hm, hi, _⟩ := makeOutputStats_some is
  exact ⟨o, ho, by rw [hm]; rfl, hi⟩

/-- Claim C9: with zero latency samples every latency output field is 0,
IOPS is 0, and no division fault or out-of-bounds access occurs (the result
is `some`, and `0 / seconds = 0` also for a zero-duration interval in the
`ℚ` model). -/
theorem emptyStats_zero (is : IntervalStats) (h : is.latNano = []) :
    ∃ o, makeOutputStats is = some o ∧
      o.minLat = 0 ∧ o.avgLat = 0 ∧ o.lat50 = 0 ∧ o.lat75 = 0 ∧ o.lat90 = 0 ∧
      o.lat95 = 0 ∧ o.lat99 = 0 ∧ o.maxLat = 0 ∧ o.ops = 0 ∧ o.iops = 0 := by
  refine ⟨_, makeOutputStats_nil is (by rw [h]; rfl),
    rfl, rfl, rfl, rfl, rfl, rfl, rfl, rfl, ?_, ?_⟩
  · simp [h]
  · show (is.latNano.length : ℚ) / ((is.intervalNano : ℚ) / 1000000000) = 0
    rw [h]
    simp

/-- An empty interval record used by the C9 witness. -/
def emptyIS : IntervalStats := ⟨0, "0", "PUT", 0, 0, 1000000000, []⟩

theorem emptyStats_zero_witness :
    (makeOutputStats emptyIS).map OutputStats.iops = some 0 ∧
    (makeOutputStats emptyIS).map OutputStats.lat50 = some 0 := by
  obtain ⟨o, ho, hmin, havg, p50, _, _, _, _, hmax, hops, hiops⟩ :=
    emptyStats_zero emptyIS rfl
  rw [ho, Option.map_some', Option.map_some', hiops, p50]
  exact ⟨rfl, rfl⟩

/-!
## The interval barrier (`Stats.updateIntervals`, lines 414-440)

Each call by a worker walks the interval indices it has just rolled past,
does `LoadOrStore` + `AddInt32(cp, 1)` on that index's completion counter,
and aggregates (`makeOutputStats` + log) exactly when the post-increment
count `== stats.threads`.  A trace is the global arrival order of all these
per-index increments; `runBarrier` returns the list of interval indices for
which an aggregation/log event was emitted, in order.
-/

/-- One barrier increment per list element: on index `i` the counter for
`i` is bumped; the event is emitted iff the new count equals the worker
count `W` (Go: `count == int32(stats.threads)`). -/
def runBarrier (W : ℕ) : List ℤ → (ℤ → ℕ) → List ℤ
  | [], _ => []
  | i :: rest, counts =>
    let c := counts i + 1
    (if c = W then [i] else []) ++
      runBarrier W rest (fun j => if j = i then c else counts j)

lemma runBarrier_count (W : ℕ) (i : ℤ) :
    ∀ (trace : List ℤ) (counts : ℤ → ℕ),
      (runBarrier W trace counts).count i =
        if counts i < W ∧ W ≤ counts i + trace.count i then 1 else 0 := by
  intro trace
  induction trace with
  | nil =>
    intro counts
    simp only [runBarrier, List.count_nil]
    rw [if_neg (by omega)]
  | cons j rest ih =>
    intro counts
    simp only [runBarrier, List.count_append]
    rw [ih]
    by_cases hj : j = i
    · subst hj
      have hjj : (if (j : ℤ) = j then counts j + 1 else counts j)
          = counts j + 1 := if_pos rfl
      rw [hjj, List.count_cons_self]
      by_cases hc : counts j + 1 = W
      · rw [if_pos hc]
        have h1 : List.count j [j] = 1 := by simp
        rw [h1, if_neg (by omega), if_pos (by omega)]
      · rw [if_neg hc, List.count_nil]
        by_cases h1 : counts j + 1 < W ∧ W ≤ counts j + 1 + rest.count j
        · rw [if_pos h1, if_pos (by omega)]
        · rw [if_neg h1, if_neg (by omega)]
    · have hij : (if (i : ℤ) = j then counts j + 1 else counts i) = counts i :=
        if_neg (fun h => hj h.symm)
      rw [hij]
      have hcnt : (j :: rest).count i = rest.count i := by
        simp [List.count_cons, Ne.symm hj]
      rw [hcnt]
      by_cases hc : counts j + 1 = W
      · rw [if_pos hc]
        have h0 : List.count i [j] = 0 := by simp [Ne.symm hj]
        rw [h0, Nat.zero_add]
      · rw [if_neg hc, List.count_nil, Nat.zero_add]

/-- Claim C2: for every interval index `i` and every arrival order of the
`W` workers' barrier increments for `i` (each worker contributes exactly one
increment for `i`, so `i` occurs `W` times in the trace, in any
interleaving with other indices), the aggregation/log event for `i` is
emitted exactly once: only the increment reaching the worker count fires. -/
theorem barrier_exactly_once (W : ℕ) (hW : 0 < W) (trace : List ℤ) (i : ℤ)
    (harrive : trace.count i = W) :
    (runBarrier W trace (fun _ => 0)).count i = 1 := by
  rw [runBarrier_count W i trace (fun _ => 0)]
  rw [if_pos (by constructor <;> omega)]

theorem barrier_exactly_once_witness :
    (runBarrier 2 [0, 1, 1, 0] (fun _ => 0)).count 0 = 1 ∧
    (runBarrier 2 [0, 1, 1, 0] (fun _ => 0)).count 1 = 1 :=
  ⟨barrier_exactly_once 2 (by norm_num) [0, 1, 1, 0] 0 (by decide),
   barrier_exactly_once 2 (by norm_num) [0, 1, 1, 0] 1 (by decide)⟩

/-!
## The worker failure counter (`runUpload` lines 468-517, `runDownload`
lines 519-571)

`errcnt` starts at 0, is incremented on every failed operation, is never
reset on success, and the loop breaks after an operation once
`errcnt > 2`.  `runWorkerOps outcomes errcnt` consumes the per-iteration
operation outcomes (`true` = success, `false` = failure) and returns how
many operations the worker performed before exiting (the other stop
conditions -- duration and object-count exhaustion -- are modelled by the
finiteness of the outcome list).
-/

def runWorkerOps : List Bool → ℕ → ℕ
  | [], _ => 0
  | true :: rest, errcnt =>
    if 2 < errcnt then 1 else 1 + runWorkerOps rest errcnt
  | false :: rest, errcnt =>
    if 2 < errcnt + 1 then 1 else 1 + runWorkerOps rest (errcnt + 1)

/-- Three consecutive failures occur somewhere in the list. -/
def hasThreeConsecutiveFalse : List Bool → Bool
  | false :: false :: false :: _ => true
  | _ :: rest => hasThreeConsecutiveFalse rest
  | [] => false

/-- Counterexample to claim C3: with outcomes fail, success, fail, success,
fail, success the worker exits after the fifth operation (result 5 < 6)
although it never incurred three consecutive failures -- `errcnt` is never
reset on success, so failures separated by successes do accumulate. -/
theorem three_strikes_cex :
    runWorkerOps [false, true, false, true, false, true] 0 = 5 ∧
    (5 : ℕ) < ([false, true, false, true, false, true] : List Bool).length ∧
    hasThreeConsecutiveFalse [false, true, false, true, false, true] = false := by
  refine ⟨by decide, by decide, by decide⟩

lemma runWorkerOps_spec (l : List Bool) :
    ∀ e : ℕ, e ≤ 2 →
      (l.count false + e < 3 → runWorkerOps l e = l.length) ∧
      (3 ≤ l.count false + e →
        runWorkerOps l e ≤ l.length ∧
        (l.take (runWorkerOps l e)).count false + e = 3 ∧
        l.getD (runWorkerOps l e - 1) true = false) := by
  induction l with
  | nil =>
    intro e he
    refine ⟨fun _ => rfl, fun h3 => ?_⟩
    simp only [List.count_nil] at h3
    omega
  | cons ok rest ih =>
    intro e he
    cases ok with
    | true =>
      have hcnt : (true :: rest).count false = rest.count false := by simp
      have hrun : runWorkerOps (true :: rest) e = runWorkerOps rest e + 1 := by
        simp only [runWorkerOps]
        rw [if_neg (by omega : ¬ 2 < e)]
        omega
      constructor
      · intro hlt
        rw [hcnt] at hlt
        rw [hrun, ((ih e he).1 (by omega : rest.count false + e < 3))]
        simp
      · intro h3
        rw [hcnt] at h3
        obtain ⟨hle, htake, hlast⟩ := (ih e he).2 (by omega)
        have hpos : 1 ≤ runWorkerOps rest e := by
          by_contra h0
          have hz : runWorkerOps rest e = 0 := by omega
          rw [hz] at htake
          simp only [List.take_zero, List.count_nil] at htake
          omega
        refine ⟨?_, ?_, ?_⟩
        · rw [hrun, List.length_cons]
          omega
        · rw [hrun, List.take_succ_cons]
          have hc : (true :: rest.take (runWorkerOps rest e)).count false
              = (rest.take (runWorkerOps rest e)).count false := by simp
          rw [hc]
          exact htake
        · rw [hrun]
          have h1 : runWorkerOps rest e + 1 - 1 = runWorkerOps rest e := by omega
          rw [h1]
          have h2 : runWorkerOps rest e = (runWorkerOps rest e - 1) + 1 := by
            omega
          rw [h2, List.getD_cons_succ]
          exact hlast
    | false =>
      have hcnt : (false :: rest).count false = rest.count false + 1 := by simp
      by_cases he2 : e = 2
      · have hrun : runWorkerOps (false :: rest) e = 1 := by
          simp only [runWorkerOps]
          rw [if_pos (by omega : 2 < e + 1)]
        constructor
        · intro hlt
          rw [hcnt] at hlt
          exfalso
          omega
        · intro _
          refine ⟨by rw [hrun, List.length_cons]; omega, ?_, by rw [hrun]; rfl⟩
          rw [hrun, List.take_succ_cons, List.take_zero]
          have hc : ([false] : List Bool).count false = 1 := by decide
          rw [hc]
          omega
      · have he1 : e + 1 ≤ 2 := by omega
        have hrun : runWorkerOps (false :: rest) e
            = runWorkerOps rest (e + 1) + 1 := by
          simp only [runWorkerOps]
          rw [if_neg (by omega : ¬ 2 < e + 1)]
          omega
        constructor
        · intro hlt
          rw [hcnt] at hlt
          rw [hrun, ((ih (e + 1) he1).1 (by omega))]
          simp
        · intro h3
          rw [hcnt] at h3
          obtain ⟨hle, htake, hlast⟩ := (ih (e + 1) he1).2 (by omega)
          have hpos : 1 ≤ runWorkerOps rest (e + 1) := by
            by_contra h0
            have hz : runWorkerOps rest (e + 1) = 0 := by omega
            rw [hz] at htake
            simp only [List.take_zero, List.count_nil] at htake
            omega
          refine ⟨?_, ?_, ?_⟩
          · rw [hrun, List.length_cons]
            omega
          · rw [hrun, List.take_succ_cons]
            have hc : (false :: rest.take (runWorkerOps rest (e + 1))).count false
                = (rest.take (runWorkerOps rest (e + 1))).count false + 1 := by
              simp
            rw [hc]
            omega
          · rw [hrun]
            have h1 : runWorkerOps rest (e + 1) + 1 - 1
                = runWorkerOps rest (e + 1) := by omega
            rw [h1]
            have h2 : runWorkerOps rest (e + 1)
                = (runWorkerOps rest (e + 1) - 1) + 1 := by omega
            rw [h2, List.getD_cons_succ]
            exact hlast

/-- Claim C3 (amended): a worker exits its operation loop exactly when its
cumulative failure count reaches three -- `errcnt` is never reset, so
failures separated by successes do accumulate.  With fewer than three
failures in total the worker processes its whole workload; with at least
three it stops at the operation on which the third failure occurs.  The
threshold (`errcnt > 2`) is a fixed constant of the code. -/
theorem three_strikes_cumulative (outcomes : List Bool) :
    (outcomes.count false < 3 → runWorkerOps outcomes 0 = outcomes.length) ∧
    (3 ≤ outcomes.count false →
      runWorkerOps outcomes 0 ≤ outcomes.length ∧
      (outcomes.take (runWorkerOps outcomes 0)).count false = 3 ∧
      outcomes.getD (runWorkerOps outcomes 0 - 1) true = false) := by
  have h := runWorkerOps_spec outcomes 0 (by omega)
  constructor
  · intro hlt
    exact h.1 (by omega)
  · intro h3
    obtain ⟨a, b, c⟩ := h.2 (by omega)
    exact ⟨a, by omega, c⟩

theorem three_strikes_witness :
    runWorkerOps [true, true] 0 = 2 ∧
    runWorkerOps [false, true, false, false, true] 0 ≤ 5 ∧
    (([false, true, false, false, true] : List Bool).take
      (runWorkerOps [false, true, false, false, true] 0)).count false = 3 :=
  ⟨(three_strikes_cumulative [true, true]).1 (by decide),
   ((three_strikes_cumulative [false, true, false, false, true]).2 (by decide)).1,
   ((three_strikes_cumulative [false, true, false, false, true]).2 (by decide)).2.1⟩

/-!
## The per-worker ledger (`ThreadStats`, lines 274-309)

`ThreadStats.updateIntervals` short-circuits only on `intervalNano < 0`;
otherwise it runs `for ts.start + intervalNano*(ts.curInterval+1) <
time.Now().UnixNano()`.  The embedding fixes `now` (the claim is about a
single call at a given clock reading) and adds fuel to the unguarded loop:
a first component `false` means the loop was still running after `fuel`
iterations.
-/

structure ThreadStats where
  start : ℤ
  curInterval : ℤ
  intervals : List IntervalStats

instance : Inhabited ThreadStats := ⟨⟨0, 0, []⟩⟩

/-- hsbench.go `makeThreadStats` (lines 280-284). -/
def makeThreadStats (s : ℤ) (loop : ℤ) (mode : String) (intervalNano : ℤ) :
    ThreadStats :=
  ⟨s, 0, [⟨loop, "0", mode, 0, 0, intervalNano, []⟩]⟩

/-- The `for` loop of `ThreadStats.updateIntervals` (lines 291-303). -/
def updateIntervalsLoop (loop : ℤ) (mode : String) (intervalNano now : ℤ) :
    ℕ → ThreadStats → Bool × ThreadStats
  | 0, ts => (false, ts)
  | fuel + 1, ts =>
    if ts.start + intervalNano * (ts.curInterval + 1) < now then
      updateIntervalsLoop loop mode intervalNano now fuel
        { ts with
          curInterval := ts.curInterval + 1,
          intervals := ts.intervals ++
            [⟨loop, toString (ts.curInterval + 1), mode, 0, 0, intervalNano, []⟩] }
    else (true, ts)

/-- hsbench.go `ThreadStats.updateIntervals` (lines 286-305). -/
def tsUpdateIntervals (loop : ℤ) (mode : String) (intervalNano now : ℤ)
    (fuel : ℕ) (ts : ThreadStats) : Bool × ThreadStats × ℤ :=
  if intervalNano < 0 then (true, ts, ts.curInterval)
  else
    let r := updateIntervalsLoop loop mode intervalNano now fuel ts
    (r.1, r.2, r.2.curInterval)

/-- hsbench.go `ThreadStats.finish` (lines 307-309). -/
def tsFinish (ts : ThreadStats) : ThreadStats := { ts with curInterval := -1 }

/-- Counterexample to claim C4: interval width 0 is non-positive, yet
`updateIntervals` is not a terminating no-op there: the `intervalNano < 0`
short-circuit does not fire, the loop guard `start + 0*(cur+1) < now` holds
(here `start = 0 < 1 = now`), and a run given fuel for 3 iterations has
advanced the current interval index to 3 and appended 3 new interval
records while still not having exited the loop. -/
theorem zero_width_cex :
    (tsUpdateIntervals 0 "PUT" 0 1 3 (makeThreadStats 0 0 "PUT" 0)).1 = false ∧
    (tsUpdateIntervals 0 "PUT" 0 1 3 (makeThreadStats 0 0 "PUT" 0)).2.2 = 3 ∧
    (tsUpdateIntervals 0 "PUT" 0 1 3
      (makeThreadStats 0 0 "PUT" 0)).2.1.intervals.length = 4 :=
  ⟨rfl, rfl, rfl⟩

/-- Claim C4 (amended): the "interval statistics disabled" short-circuit of
`updateIntervals` covers only strictly negative interval widths: for
`intervalNano < 0` the call returns the current interval index unchanged
and creates no interval records, for any state, clock and fuel.  For width
zero (also non-positive) with the clock past the start the loop guard never
becomes false: the loop never exits, whatever the fuel, so the advance is a
non-terminating loop rather than a no-op. -/
theorem neg_width_noop :
    (∀ (loop : ℤ) (mode : String) (intervalNano now : ℤ) (fuel : ℕ)
       (ts : ThreadStats), intervalNano < 0 →
       tsUpdateIntervals loop mode intervalNano now fuel ts
         = (true, ts, ts.curInterval)) ∧
    (∀ (loop : ℤ) (mode : String) (now : ℤ) (fuel : ℕ) (ts : ThreadStats),
       ts.start < now →
       (updateIntervalsLoop loop mode 0 now fuel ts).1 = false) := by
  constructor
  · intro loop mode iN now fuel ts h
    unfold tsUpdateIntervals
    rw [if_pos h]
  · intro loop mode now fuel
    induction fuel with
    | zero =>
      intro ts _
      rfl
    | succ n ih =>
      intro ts h
      simp only [updateIntervalsLoop]
      rw [if_pos (by omega : ts.start + 0 * (ts.curInterval + 1) < now)]
      exact ih _ h

theorem neg_width_noop_witness :
    tsUpdateIntervals 0 "PUT" (-1) 5 10 (makeThreadStats 0 0 "PUT" (-1))
      = (true, makeThreadStats 0 0 "PUT" (-1), 0) ∧
    (updateIntervalsLoop 0 "PUT" 0 1 7 (makeThreadStats 0 0 "PUT" 0)).1
      = false :=
  ⟨neg_width_noop.1 0 "PUT" (-1) 5 10 (makeThreadStats 0 0 "PUT" (-1))
     (by norm_num),
   neg_width_noop.2 0 "PUT" 1 7 (makeThreadStats 0 0 "PUT" 0) (by decide)⟩

/-!
## Phase-level statistics (`Stats`, lines 311-466)

`intervalCompletions` models the `sync.Map` of per-interval completion
counters (`none` = key absent), `completions` the atomic finished-worker
counter.  The Go loops `for t := 0; t < stats.threads; t++` index
`stats.threadStats[t]`; `makeStats` always allocates exactly `threads`
ledgers, which the embedding reflects by iterating over
`threadStats.take threads`.
-/

structure Stats where
  threads : ℕ
  loop : ℤ
  mode : String
  startNano : ℤ
  endNano : ℤ
  intervalNano : ℤ
  threadStats : List ThreadStats
  intervalCompletions : ℤ → Option ℤ
  completions : ℤ

/-- The cross-worker aggregate interval record built by
`Stats.makeOutputStats` (lines 361-377) from the workers' records at
interval `i`. -/
def aggIS (s : Stats) (i : ℤ) (ivs : List IntervalStats) : IntervalStats :=
  ⟨s.loop, toString i, s.mode,
   (ivs.map (fun iv => iv.bytes)).sum,
   (ivs.map (fun iv => iv.slowdowns)).sum,
   s.intervalNano,
   sortLat ((ivs.map (fun iv => iv.latNano)).flatten)⟩

/-- hsbench.go `Stats.makeOutputStats` (lines 342-379): the per-interval
read path.  `some (emptyOutput, false)` models each defensive "not ready"
refusal (`OutputStats{}, false`), `none` an index panic, `some (o, true)` a
successful aggregation. -/
def statsMakeOutputStats (s : Stats) (i : ℤ) : Option (OutputStats × Bool) :=
  if s.intervalNano < 0 ∨ i < 0 then some (emptyOutput, false)
  else
    (s.intervalCompletions i).elim (some (emptyOutput, false)) fun cnt =>
      if cnt < (s.threads : ℤ) then some (emptyOutput, false)
      else
        ((s.threadStats.take s.threads).mapM
            (fun ts => idxGetD default ts.intervals i)).elim none fun ivs =>
          (makeOutputStats (aggIS s i ivs)).map fun o => (o, true)

/-- The phase-total aggregate interval record built by
`Stats.makeTotalStats` (lines 389-409): every worker, every interval. -/
def totalIS (s : Stats) : IntervalStats :=
  ⟨s.loop, "TOTAL", s.mode,
   ((s.threadStats.take s.threads).map
     (fun ts => (ts.intervals.map (fun iv => iv.bytes)).sum)).sum,
   ((s.threadStats.take s.threads).map
     (fun ts => (ts.intervals.map (fun iv => iv.slowdowns)).sum)).sum,
   s.endNano - s.startNano,
   sortLat (((s.threadStats.take s.threads).map
     (fun ts => (ts.intervals.map (fun iv => iv.latNano)).flatten)).flatten)⟩

/-- hsbench.go `Stats.makeTotalStats` (lines 381-411): the phase-total read
path.  `globalThreads` is the global variable `threads` the completion
check compares against (the `Stats` field and the global coincide in every
phase). -/
def makeTotalStats (globalThreads : ℤ) (s : Stats) :
    Option (OutputStats × Bool) :=
  if s.completions < globalThreads then some (emptyOutput, false)
  else (makeOutputStats (totalIS s)).map fun o => (o, true)

/-- hsbench.go `Stats.addOp` (lines 442-452): checks the finished sentinel
(`cur < 0`) and returns the ledger unchanged in that case. -/
def addOp (s : Stats) (t : ℕ) (b latNano : ℤ) : Option Stats :=
  (idxGetD default s.threadStats (t : ℤ)).elim none fun ts =>
    if ts.curInterval < 0 then some s
    else
      (idxGetD default ts.intervals ts.curInterval).elim none fun iv =>
        let iv2 := { iv with bytes := iv.bytes + b,
                             latNano := iv.latNano ++ [latNano] }
        let ts2 := { ts with
          intervals := ts.intervals.set ts.curInterval.toNat iv2 }
        some { s with threadStats := s.threadStats.set t ts2 }

/-- hsbench.go `Stats.addSlowDown` (lines 454-457): no sentinel check
before indexing `intervals[cur]`. -/
def addSlowDown (s : Stats) (t : ℕ) : Option Stats :=
  (idxGetD default s.threadStats (t : ℤ)).elim none fun ts =>
    (idxGetD default ts.intervals ts.curInterval).elim none fun iv =>
      let iv2 := { iv with slowdowns := iv.slowdowns + 1 }
      let ts2 := { ts with
        intervals := ts.intervals.set ts.curInterval.toNat iv2 }
      some { s with threadStats := s.threadStats.set t ts2 }

/-- Claim C5: when the phase-total read is ready (all workers finished),
the TOTAL record's operation count and slowdown count equal the sums over
all workers and over every one of each worker's intervals of the
per-interval operation counts and slowdowns, and its MB/s is computed from
the corresponding all-worker all-interval byte sum -- so the per-interval
data reconciles exactly with the phase total. -/
theorem total_stats_sums (globalThreads : ℤ) (s : Stats)
    (hready : globalThreads ≤ s.completions)
    (hlen : s.threadStats.length = s.threads) :
    ∃ o, makeTotalStats globalThreads s = some (o, true) ∧
      o.ops = (s.threadStats.map
        (fun ts => (ts.intervals.map (fun iv => iv.latNano.length)).sum)).sum ∧
      o.slowdowns = (s.threadStats.map
        (fun ts => (ts.intervals.map (fun iv => iv.slowdowns)).sum)).sum ∧
      o.mbps = (((s.threadStats.map
          (fun ts => (ts.intervals.map (fun iv => iv.bytes)).sum)).sum : ℤ) : ℚ)
        / (((s.endNano - s.startNano : ℤ) : ℚ) / 1000000000) / MEGABYTE := by
  have htake : s.threadStats.take s.threads = s.threadStats := by
    rw [← hlen]
    exact List.take_length s.threadStats
  obtain ⟨o, ho, _, _, _, _, hops, hmbps, _, hsd⟩ :=
    makeOutputStats_some (totalIS s)
  refine ⟨o, ?_, ?_, ?_, ?_⟩
  · unfold makeTotalStats
    rw [if_neg (not_lt.mpr hready), ho]
    rfl
  · rw [hops]
    show (totalIS s).latNano.length = _
    unfold totalIS
    simp only [sortLat, List.length_mergeSort, htake, List.length_flatten,
      List.map_map, Function.comp_def]
  · rw [hsd]
    show (totalIS s).slowdowns = _
    unfold totalIS
    rw [htake]
  · rw [hmbps]
    show ((totalIS s).bytes : ℚ) / _ / MEGABYTE = _
    unfold totalIS
    rw [htake]

/-- A one-worker two-interval phase used by the C5 witness. -/
def totalsSample : Stats :=
  ⟨1, 0, "PUT", 0, 2000000000, 1000000000,
   [⟨0, 0, [⟨0, "0", "PUT", 10, 1, 1000000000, [5, 3]⟩,
            ⟨0, "1", "PUT", 20, 2, 1000000000, [7]⟩]⟩],
   (fun _ => none), 1⟩

theorem total_stats_sums_witness :
    (makeTotalStats 1 totalsSample).map (fun p => p.1.ops) = some 3 ∧
    (makeTotalStats 1 totalsSample).map (fun p => p.1.slowdowns) = some 3 := by
  obtain ⟨o, ho, hops, hsd, _⟩ :=
    total_stats_sums 1 totalsSample (by decide) rfl
  rw [ho]
  constructor
  · rw [Option.map_some', hops]
    decide
  · rw [Option.map_some', hsd]
    decide

/-- Claim C8: both read paths refuse instead of blocking.  The per-interval
read returns the Go not-ready result `(OutputStats{}, false)` whenever
interval `i`'s completion counter is absent or below the worker count, and
the phase-total read returns it whenever fewer workers than the worker
count have finished; both are total functions (no blocking) and neither
produces an aggregate on this path. -/
theorem read_paths_refuse :
    (∀ (s : Stats) (i : ℤ),
      (s.intervalCompletions i = none ∨
        ∃ c, s.intervalCompletions i = some c ∧ c < (s.threads : ℤ)) →
      statsMakeOutputStats s i = some (emptyOutput, false)) ∧
    (∀ (globalThreads : ℤ) (s : Stats), s.completions < globalThreads →
      makeTotalStats globalThreads s = some (emptyOutput, false)) := by
  constructor
  · intro s i h
    unfold statsMakeOutputStats
    by_cases h0 : s.intervalNano < 0 ∨ i < 0
    · rw [if_pos h0]
    · rw [if_neg h0]
      rcases h with hnone | ⟨c, hc, hlt⟩
      · rw [hnone]
        rfl
      · rw [hc, Option.elim_some, if_pos hlt]
  · intro globalThreads s h
    unfold makeTotalStats
    rw [if_pos h]

/-- A two-worker phase with one counter absent, one counter at 1 of 2, and
no finished worker, used by the C8 witness. -/
def notReadySample : Stats :=
  ⟨2, 0, "PUT", 0, 0, 1000000000, [],
   (fun j => if j = 0 then some 1 else none), 0⟩

theorem read_paths_refuse_witness :
    statsMakeOutputStats notReadySample 1 = some (emptyOutput, false) ∧
    statsMakeOutputStats notReadySample 0 = some (emptyOutput, false) ∧
    makeTotalStats 2 notReadySample = some (emptyOutput, false) :=
  ⟨read_paths_refuse.1 notReadySample 1 (Or.inl rfl),
   read_paths_refuse.1 notReadySample 0 (Or.inr ⟨1, rfl, by decide⟩),
   read_paths_refuse.2 2 notReadySample (by decide)⟩

/-- A one-worker phase whose worker has already called `finish()`
(current-interval sentinel −1). -/
def finishedStats : Stats :=
  ⟨1, 0, "PUT", 0, 0, 1000000000,
   [tsFinish (makeThreadStats 0 0 "PUT" 1000000000)], (fun _ => none), 0⟩

/-- Counterexample to claim C10: in the reachable state where the worker
has called `finish()` (sentinel −1) -- exactly the state the claim singles
out -- `addSlowDown` indexes `intervals[-1]`, an out-of-bounds slice access
(Go panic, `none` in the embedding), not a valid index access; `addOp` in
the same state checks the sentinel and returns the ledger unchanged. -/
theorem addSlowDown_finished_cex :
    addSlowDown finishedStats 0 = none ∧
    addOp finishedStats 0 5 7 = some finishedStats :=
  ⟨rfl, rfl⟩

/-- Claim C10 (amended): `addSlowDown`'s increment of the current
interval's slowdown counter is a valid index access iff the worker's
current interval is a valid index into its intervals sequence
(`0 ≤ cur < len`), which holds in the states where workers actually call it
(before their `finish()`), but not after `finish()` has set the sentinel to
−1, where the access is out of bounds; `addOp`, by contrast, checks the
sentinel and leaves the ledger unchanged. -/
theorem addSlowDown_bounds (s : Stats) (t : ℕ) (ts : ThreadStats)
    (hts : idxGetD default s.threadStats (t : ℤ) = some ts) :
    ((addSlowDown s t).isSome = true ↔
      0 ≤ ts.curInterval ∧ ts.curInterval < (ts.intervals.length : ℤ)) ∧
    (∀ b latNano : ℤ, ts.curInterval < 0 → addOp s t b latNano = some s) := by
  constructor
  · have key : (addSlowDown s t).isSome
        = (idxGetD default ts.intervals ts.curInterval).isSome := by
      unfold addSlowDown
      rw [hts, Option.elim_some]
      cases idxGetD default ts.intervals ts.curInterval with
      | none => rfl
      | some iv => rfl
    rw [key]
    exact idxGetD_isSome default ts.intervals ts.curInterval
  · intro b latNano hneg
    unfold addOp
    rw [hts, Option.elim_some, if_pos hneg]

/-- A one-worker phase whose worker is still live (current interval 0). -/
def liveStats : Stats :=
  ⟨1, 0, "PUT", 0, 0, 1000000000,
   [makeThreadStats 0 0 "PUT" 1000000000], (fun _ => none), 0⟩

theorem addSlowDown_bounds_witness :
    (addSlowDown liveStats 0).isSome = true ∧
    addOp finishedStats 0 11 13 = some finishedStats :=
  ⟨((addSlowDown_bounds liveStats 0 (makeThreadStats 0 0 "PUT" 1000000000)
      rfl).1).mpr (by decide),
   (addSlowDown_bounds finishedStats 0
      (tsFinish (makeThreadStats 0 0 "PUT" 1000000000)) rfl).2 11 13
      (by decide)⟩

/-!
## The put-phase object-count carry-over (`runWrapper`, lines 780-867)

`op_counter` starts at −1; each put iteration claims an index with an
atomic increment and a failed put decrements it back (and bumps `errcnt`,
exiting once `errcnt > 2`).  After a put phase run with `object_count < 0`
the orchestrator sets `object_count = op_counter + 1` and raises
`object_count_flag`; at the start of a later put phase a raised flag resets
`object_count` to −1.
-/

/-- The pin clearing at the start of `runWrapper` (lines 787-792). -/
def clearPinStep (r : Char) (oc : ℤ) (flag : Bool) : ℤ × Bool :=
  if r = 'p' ∧ flag then (-1, false) else (oc, flag)

/-- The effect of one worker's put loop on `op_counter` when the object
count is unlimited (`runUpload`, lines 471-514): argument order is
outcomes (`true` = successful put), current counter, current `errcnt`. -/
def putLoop : List Bool → ℤ → ℕ → ℤ
  | [], c, _ => c
  | true :: rest, c, e =>
    if 2 < e then c + 1 else putLoop rest (c + 1) e
  | false :: rest, c, e =>
    if 2 < e + 1 then c else putLoop rest c (e + 1)

/-- The pin at the end of `runWrapper` (lines 846-851). -/
def pinStep (r : Char) (oc : ℤ) (flag : Bool) (ctr : ℤ) : ℤ × Bool :=
  if r = 'p' ∧ oc < 0 then (ctr + 1, true) else (oc, flag)

/-- One put phase of `runWrapper` (mode `'p'`) for a single worker with the
given per-iteration outcomes: clear any previous pin, run the put loop with
`op_counter = -1`, then apply the pin rule; returns the final
`(object_count, object_count_flag)`. -/
def runPutPhase (oc : ℤ) (flag : Bool) (outcomes : List Bool) : ℤ × Bool :=
  let p := clearPinStep 'p' oc flag
  pinStep 'p' p.1 p.2 (putLoop outcomes (-1) 0)

/-- Counterexample to claim C7: a put phase with unlimited object count in
which one worker writes exactly one object pins the object count to 1
(`op_counter + 1`, with final `op_counter = 0`) -- the number of objects
actually written -- and not to the number written plus one, which would
be 2. -/
theorem object_count_pin_cex :
    (runPutPhase (-1) false [true]).1 = 1 ∧
    ((1 : ℤ) ≠ (([true] : List Bool).count true : ℤ) + 1) :=
  ⟨rfl, by decide⟩

lemma putLoop_eq (outcomes : List Bool) :
    ∀ (c : ℤ) (e : ℕ), outcomes.count false + e ≤ 2 →
      putLoop outcomes c e = c + (outcomes.count true : ℤ) := by
  induction outcomes with
  | nil =>
    intro c e _
    simp [putLoop]
  | cons ok rest ih =>
    intro c e h
    cases ok with
    | true =>
      have hcnt : (true :: rest).count false = rest.count false := by simp
      rw [hcnt] at h
      simp only [putLoop]
      rw [if_neg (by omega : ¬ 2 < e), ih (c + 1) e h]
      have hct : (true :: rest).count true = rest.count true + 1 := by simp
      rw [hct]
      push_cast
      ring
    | false =>
      have hcnt : (false :: rest).count false = rest.count false + 1 := by simp
      rw [hcnt] at h
      simp only [putLoop]
      rw [if_neg (by omega : ¬ 2 < e + 1), ih c (e + 1) (by omega)]
      have hct : (false :: rest).count true = rest.count true := by simp
      rw [hct]

/-- Claim C7 (amended): after a put phase run with the object count unset
(negative after the clearing step) in which the worker incurred at most two
failures, the orchestrator pins the global object count to
`op_counter + 1`, which equals the number of objects actually written (not
that number plus one), and raises the pin flag; and at the start of any
later put phase an existing pin is cleared back to unlimited (−1) with the
flag lowered. -/
theorem object_count_pin (oc : ℤ) (flag : Bool) (outcomes : List Bool)
    (hfail : outcomes.count false ≤ 2)
    (hunset : (clearPinStep 'p' oc flag).1 < 0) :
    runPutPhase oc flag outcomes = ((outcomes.count true : ℤ), true) ∧
    ∀ oc2 : ℤ, clearPinStep 'p' oc2 true = (-1, false) := by
  constructor
  · simp only [runPutPhase]
    rw [putLoop_eq outcomes (-1) 0 (by omega)]
    unfold pinStep
    rw [if_pos ⟨rfl, hunset⟩]
    have harith : (-1 : ℤ) + (outcomes.count true : ℤ) + 1
        = (outcomes.count true : ℤ) := by omega
    rw [harith]
  · intro oc2
    unfold clearPinStep
    rw [if_pos ⟨rfl, rfl⟩]

theorem object_count_pin_witness :
    runPutPhase (-1) false [true, false, true] = (2, true) ∧
    clearPinStep 'p' 7 true = (-1, false) := by
  obtain ⟨h1, h2⟩ :=
    object_count_pin (-1) false [true, false, true] (by decide) (by decide)
  refine ⟨?_, h2 7⟩
  rw [h1]
  rfl

end Hsbench
